import Mathlib

/-
Verification development for auto_convert.py, a directory watcher that
converts image files to PNG and video files to MP4.  The Python source is
shallowly embedded: pure path manipulation becomes Lean functions on
strings, the filesystem and the log become explicit state, the external
converters (PIL, ffmpeg) become oracles describing the outcome of one
invocation, and the polling loop of wait_for_file_ready becomes a function
over a finite trace of size observations (one entry per poll; the end of
the trace is the timeout).
-/

namespace AutoConvert

/-- Index of the last occurrence of a character in a list of characters. -/
def lastIdx (c : Char) : List Char → Option Nat
  | [] => none
  | a :: rest =>
    match lastIdx c rest with
    | some i => some (i + 1)
    | none => if a = c then some 0 else none

/-- Python pathlib `suffix` of a file name: the part from the last dot on,
provided that dot is neither the first nor the last character of the name
(so ".bashrc" has suffix "" while ".tmp.jpg" has suffix ".jpg"). -/
def pySuffix (name : String) : String :=
  let l := name.toList
  match lastIdx '.' l with
  | some i => if 0 < i && i + 1 < l.length then String.mk (l.drop i) else ""
  | none => ""

/-- Python pathlib `stem` of a file name: the name with `pySuffix` removed. -/
def pyStem (name : String) : String :=
  let l := name.toList
  match lastIdx '.' l with
  | some i => if 0 < i && i + 1 < l.length then String.mk (l.take i) else name
  | none => name

/-- Python pathlib `name` of a path: the component after the last slash. -/
def pyName (path : String) : String :=
  let l := path.toList
  match lastIdx '/' l with
  | some i => String.mk (l.drop (i + 1))
  | none => path

/-- Default image extension set (IMAGE_EXTENSIONS in the source). -/
def IMAGE_EXTENSIONS : List String :=
  [".jpg", ".jpeg", ".bmp", ".gif", ".tif", ".tiff", ".webp", ".heic", ".heif"]

/-- Default video extension set (VIDEO_EXTENSIONS in the source). -/
def VIDEO_EXTENSIONS : List String :=
  [".mp4", ".mov", ".mkv", ".avi", ".m4v", ".wmv", ".flv", ".webm"]

/-- ConversionConfig from the source: the immutable configuration snapshot. -/
structure ConversionConfig where
  input_dir : String
  output_dir : String
  image_exts : List String
  video_exts : List String
  ffmpeg_bin : String
  video_crf : String
  video_preset : String
  deriving DecidableEq

/-- Property image_output_dir of ConversionConfig. -/
def ConversionConfig.image_output_dir (c : ConversionConfig) : String :=
  c.output_dir ++ "/images"

/-- Property video_output_dir of ConversionConfig. -/
def ConversionConfig.video_output_dir (c : ConversionConfig) : String :=
  c.output_dir ++ "/videos"

/-
wait_for_file_ready: the loop body is `wfrStep`, one iteration per poll.
A poll observes `none` when path.stat() raises FileNotFoundError (the
`except FileNotFoundError: ... continue` branch, which touches neither
last_size nor stable_count), and `some s` when the stat succeeds with
size s.  The mutable loop state is (last_size, stable_count), with
last_size an integer initialised to -1 exactly as in the source.
-/

/-- Loop state of wait_for_file_ready: last_size starts at -1, stable_count at 0. -/
structure WfrState where
  last_size : Int
  stable_count : Nat
  deriving DecidableEq

/-- One iteration of the polling loop of wait_for_file_ready: returns whether
the function returns True at this poll, and the updated loop state. -/
def wfrStep (stable_checks : Nat) (st : WfrState) (obs : Option Nat) : Bool × WfrState :=
  match obs with
  | none => (false, st)
  | some size =>
    if (size : Int) = st.last_size ∧ 0 < size then
      (st.stable_count + 1 ≥ stable_checks,
        { last_size := st.last_size, stable_count := st.stable_count + 1 })
    else
      (false, { last_size := (size : Int), stable_count := 0 })

/-- Run the polling loop over a finite trace of observations; an exhausted
trace is the timeout, where the source returns False. -/
def wfrRun (stable_checks : Nat) (st : WfrState) : List (Option Nat) → Bool
  | [] => false
  | obs :: rest =>
    let r := wfrStep stable_checks st obs
    if r.1 then true else wfrRun stable_checks r.2 rest

/-- wait_for_file_ready from the source, over a trace of size observations. -/
def wait_for_file_ready (stable_checks : Nat) (trace : List (Option Nat)) : Bool :=
  wfrRun stable_checks { last_size := -1, stable_count := 0 } trace

/-- Python str.lower applied to an extension; the source only lowercases
ASCII extension strings, which Char.toLower covers. -/
def strLower (s : String) : String := String.mk (s.toList.map Char.toLower)

/-- One logging call of the source, as structured data (the format string is
identified by the constructor, its interpolated arguments are the fields). -/
inductive LogEntry where
  | imageExists (output_path : String)
  | convertedImage (src output_path : String)
  | cannotIdentify (src : String)
  | imageConvertFailed (src : String)
  | videoExists (output_path : String)
  | convertedVideo (src output_path : String)
  | ffmpegFailed (src stderrText : String)
  | ffmpegNotFound
  | fileNotStable (path : String)
  | noConverter (path : String)
  | processingExisting (name : String)
  deriving DecidableEq

/-- ConversionOutcome of the spec: which branch a conversion attempt took.
The source only logs; recording the branch is the observable enrichment. -/
inductive Outcome where
  | converted (output_path : String)
  | skippedExisting
  | skippedUnstable
  | skippedUnrecognized
  | unreadable
  | failed (diagnostic : String)
  | toolMissing
  | raisedInternal
  deriving DecidableEq

/-- Result of one PIL Image.open/convert/save attempt on a given source
(the image converter capability is an external collaborator). -/
inductive ImageDecode where
  | ok
  | unidentified
  | exn
  deriving DecidableEq

/-- Result of one subprocess.run of ffmpeg on a given source.  On a nonzero
exit status (calledProcessError) the flag records whether ffmpeg left a
partially written file at the output path before failing. -/
inductive FfmpegResult where
  | success (stderrText : String)
  | calledProcessError (stderrText : String) (wroteOutput : Bool)
  | fileNotFound
  deriving DecidableEq

/-- Observable state threaded through the embedded conversions: the set of
existing filesystem paths, the log, the list of sources for which a
converter capability was actually invoked, and the outcome of each
conversion attempt. -/
structure World where
  files : List String
  log : List LogEntry
  invoked : List String
  outcomes : List (String × Outcome)
  deriving DecidableEq

/-- convert_image_to_png from the source: skip when the output exists,
otherwise invoke the image capability, whose result `dec` describes. -/
def convert_image_to_png (dec : ImageDecode) (src : String) (dest_dir : String)
    (w : World) : Outcome × World :=
  let output_path := dest_dir ++ "/" ++ pyStem (pyName src) ++ ".png"
  if w.files.contains output_path then
    (Outcome.skippedExisting, { w with log := w.log ++ [LogEntry.imageExists output_path] })
  else
    let w1 := { w with invoked := w.invoked ++ [src] }
    match dec with
    | ImageDecode.ok =>
      (Outcome.converted output_path,
        { w1 with files := output_path :: w1.files,
                  log := w1.log ++ [LogEntry.convertedImage (pyName src) output_path] })
    | ImageDecode.unidentified =>
      (Outcome.unreadable, { w1 with log := w1.log ++ [LogEntry.cannotIdentify src] })
    | ImageDecode.exn =>
      (Outcome.failed "", { w1 with log := w1.log ++ [LogEntry.imageConvertFailed src] })

/-- convert_video_to_mp4 from the source: skip when the output exists,
otherwise run ffmpeg, whose result `run` describes.  On a nonzero exit the
source logs the captured stderr and unlinks the output path if present. -/
def convert_video_to_mp4 (run : FfmpegResult) (src : String) (dest_dir : String)
    (w : World) : Outcome × World :=
  let output_path := dest_dir ++ "/" ++ pyStem (pyName src) ++ ".mp4"
  if w.files.contains output_path then
    (Outcome.skippedExisting, { w with log := w.log ++ [LogEntry.videoExists output_path] })
  else
    let w1 := { w with invoked := w.invoked ++ [src] }
    match run with
    | FfmpegResult.success _ =>
      (Outcome.converted output_path,
        { w1 with files := output_path :: w1.files,
                  log := w1.log ++ [LogEntry.convertedVideo (pyName src) output_path] })
    | FfmpegResult.calledProcessError stderrText wroteOutput =>
      let filesAfterRun := if wroteOutput then output_path :: w1.files else w1.files
      (Outcome.failed stderrText,
        { w1 with files := filesAfterRun.filter (fun q => q ≠ output_path),
                  log := w1.log ++ [LogEntry.ffmpegFailed src stderrText] })
    | FfmpegResult.fileNotFound =>
      (Outcome.toolMissing, { w1 with log := w1.log ++ [LogEntry.ffmpegNotFound] })

namespace ConversionHandler

/-
ConversionHandler: the watchdog event handler.  Its mutable state is the
mutex-guarded set self._in_progress, modelled as a list of paths with set
semantics.  Because every access to the set is inside `with self._lock`,
concurrent calls of _schedule linearise; a batch of near-simultaneous
events is therefore modelled as a sequence of _schedule calls.
-/

/-- Python name.startswith("."): the first character of the name is a dot. -/
def startsWithDot (name : String) : Bool :=
  match name.toList with
  | [] => false
  | c :: _ => c = '.'

/-- ConversionHandler._should_ignore: reject a path whose lowercased suffix
is in neither configured set, whose name starts with a dot, or which no
longer exists (existence is membership in the current file set). -/
def _should_ignore (cfg : ConversionConfig) (files : List String) (path : String) : Bool :=
  let suffix := strLower (pySuffix (pyName path))
  if ¬ cfg.image_exts.contains suffix ∧ ¬ cfg.video_exts.contains suffix then true
  else if startsWithDot (pyName path) then true
  else if ¬ files.contains path then true
  else false

/-- ConversionHandler._schedule: filter, then atomically check-then-add the
path to the in-progress set under the lock; returns whether a worker thread
was spawned, together with the updated in-progress set. -/
def _schedule (cfg : ConversionConfig) (files : List String) (path : String)
    (in_progress : List String) : Bool × List String :=
  if _should_ignore cfg files path then (false, in_progress)
  else if in_progress.contains path then (false, in_progress)
  else (true, path :: in_progress)

/-- One event delivery in a sequence: run _schedule on the current
in-progress set and add one to the spawn count when a thread was started. -/
def scheduleStep (cfg : ConversionConfig) (files : List String)
    (acc : Nat × List String) (path : String) : Nat × List String :=
  let r := _schedule cfg files path acc.2
  (acc.1 + (if r.1 then 1 else 0), r.2)

/-- A sequence of _schedule calls (the linearisation of near-simultaneous
events under the handler's single mutex), counting how many spawned a task. -/
def scheduleEvents (cfg : ConversionConfig) (files : List String)
    (events : List String) (in_progress : List String) : Nat × List String :=
  events.foldl (scheduleStep cfg files) (0, in_progress)

/-- ConversionHandler._process_path: the body of the worker thread.  The
try block stabilises, classifies by suffix and converts; `stableTrace`
drives wait_for_file_ready, `dec` and `run` the converter capabilities, and
`raised` models an unexpected internal exception escaping the body.  The
finally block discards the path from the in-progress set on every exit. -/
def _process_path (cfg : ConversionConfig) (stableTrace : List (Option Nat))
    (dec : ImageDecode) (run : FfmpegResult) (raised : Bool) (path : String)
    (in_progress : List String) (w : World) : List String × World × Outcome :=
  let body : World × Outcome :=
    if raised then (w, Outcome.raisedInternal)
    else if ¬ wait_for_file_ready 3 stableTrace then
      ({ w with log := w.log ++ [LogEntry.fileNotStable path] }, Outcome.skippedUnstable)
    else
      let suffix := strLower (pySuffix (pyName path))
      if cfg.image_exts.contains suffix then
        let r := convert_image_to_png dec path cfg.image_output_dir w
        (r.2, r.1)
      else if cfg.video_exts.contains suffix then
        let r := convert_video_to_mp4 run path cfg.video_output_dir w
        (r.2, r.1)
      else
        ({ w with log := w.log ++ [LogEntry.noConverter path] }, Outcome.skippedUnrecognized)
  (in_progress.filter (fun q => q ≠ path), body.1, body.2)

end ConversionHandler

/-- One directory entry as yielded by input_dir.iterdir(): its name and
whether it is a regular file. -/
structure DirEntry where
  name : String
  isFile : Bool
  deriving DecidableEq

/-- Lexicographic comparison of character lists by code point, the order
Python uses to compare strings. -/
def charListLe : List Char → List Char → Bool
  | [], _ => true
  | _ :: _, [] => false
  | a :: as, b :: bs => if a = b then charListLe as bs else decide (a.toNat ≤ b.toNat)

/-- Name order on strings, by code point. -/
def nameLe (a b : String) : Bool := charListLe a.toList b.toList

/-- Insert an entry into a name-sorted list (Python sorted() on paths of a
common parent directory orders by name). -/
def insertByName (e : DirEntry) : List DirEntry → List DirEntry
  | [] => [e]
  | f :: fs => if nameLe e.name f.name then e :: f :: fs else f :: insertByName e fs

/-- Sort directory entries by name, as sorted(config.input_dir.iterdir()). -/
def sortByName (l : List DirEntry) : List DirEntry :=
  l.foldr insertByName []

/-- The full path of a directory entry inside the input directory. -/
def fullPath (cfg : ConversionConfig) (e : DirEntry) : String :=
  cfg.input_dir ++ "/" ++ e.name

/-- Whether the startup bulk pass selects an entry: a regular file whose
lowercased suffix is in one of the configured extension sets. -/
def bulkMatches (cfg : ConversionConfig) (e : DirEntry) : Bool :=
  e.isFile &&
    (cfg.image_exts.contains (strLower (pySuffix e.name)) ||
     cfg.video_exts.contains (strLower (pySuffix e.name)))

/-- The destination path the bulk pass would write for an entry (the image
set is consulted first, exactly as in the source). -/
def bulkOutPath (cfg : ConversionConfig) (e : DirEntry) : String :=
  if cfg.image_exts.contains (strLower (pySuffix e.name)) then
    cfg.image_output_dir ++ "/" ++ pyStem (pyName (fullPath cfg e)) ++ ".png"
  else
    cfg.video_output_dir ++ "/" ++ pyStem (pyName (fullPath cfg e)) ++ ".mp4"

/-- The loop body of process_existing_files for one directory entry. -/
def bulk_step (cfg : ConversionConfig) (dec : String → ImageDecode)
    (run : String → FfmpegResult) (w : World) (e : DirEntry) : World :=
  if e.isFile then
    let path := fullPath cfg e
    let suffix := strLower (pySuffix e.name)
    if cfg.image_exts.contains suffix || cfg.video_exts.contains suffix then
      let w1 := { w with log := w.log ++ [LogEntry.processingExisting e.name] }
      if cfg.image_exts.contains suffix then
        let r := convert_image_to_png (dec path) path cfg.image_output_dir w1
        { r.2 with outcomes := r.2.outcomes ++ [(path, r.1)] }
      else
        let r := convert_video_to_mp4 (run path) path cfg.video_output_dir w1
        { r.2 with outcomes := r.2.outcomes ++ [(path, r.1)] }
    else w
  else w

/-- process_existing_files from the source: iterate the directory entries
sorted by name, sequentially, converting every regular file whose suffix is
in one of the configured sets. -/
def process_existing_files (cfg : ConversionConfig) (dec : String → ImageDecode)
    (run : String → FfmpegResult) (entries : List DirEntry) (w : World) : World :=
  (sortByName entries).foldl (bulk_step cfg dec run) w

/-- The startup behaviour of main(): the bulk pass runs unless the
no-process-existing flag disables it. -/
def run_startup (cfg : ConversionConfig) (dec : String → ImageDecode)
    (run : String → FfmpegResult) (entries : List DirEntry)
    (no_process_existing : Bool) (w : World) : World :=
  if no_process_existing then w else process_existing_files cfg dec run entries w

/-- A trace of size observations contains a stable run for threshold K:
some poll j and the K polls after it all observe the same size, and that
size is strictly positive.  (The K polls after j are each unchanged from
their previous observation, so the counter of the prober reaches K.) -/
def hasStableRun (K : Nat) (sizes : List Nat) : Prop :=
  ∃ j, j + K < sizes.length ∧ 0 < sizes.getD j 0 ∧
    ∀ i, j ≤ i → i ≤ j + K → sizes.getD i 0 = sizes.getD j 0

/-- The configuration built by main() from the default CLI arguments. -/
def defaultConfig : ConversionConfig :=
  { input_dir := "in", output_dir := "out",
    image_exts := IMAGE_EXTENSIONS, video_exts := VIDEO_EXTENSIONS,
    ffmpeg_bin := "ffmpeg", video_crf := "23", video_preset := "medium" }

/-- A world with no files, no log and no recorded activity. -/
def emptyWorld : World :=
  { files := [], log := [], invoked := [], outcomes := [] }

/-
Theorems.
-/

/-- Scheduling a path that is already in the in-progress set spawns nothing
and leaves the set unchanged, whatever the filter says. -/
theorem schedule_inProgress_noop (cfg : ConversionConfig) (files : List String)
    (p : String) (s : List String) (h : s.contains p = true) :
    ConversionHandler._schedule cfg files p s = (false, s) := by
  have hm : p ∈ s := by simpa using h
  simp [ConversionHandler._schedule, hm]

/-- Once the path is held, any further burst of events for it is absorbed:
no spawns are added and the in-progress set does not change. -/
theorem scheduleEvents_absorbed (cfg : ConversionConfig) (files : List String)
    (p : String) : ∀ (n c : Nat) (s : List String), s.contains p = true →
    (List.replicate n p).foldl (ConversionHandler.scheduleStep cfg files) (c, s) = (c, s) := by
  intro n
  induction n with
  | zero => intro c s _; rfl
  | succ m ih =>
    intro c s h
    rw [List.replicate_succ, List.foldl_cons]
    have hstep : ConversionHandler.scheduleStep cfg files (c, s) p = (c, s) := by
      simp [ConversionHandler.scheduleStep, schedule_inProgress_noop cfg files p s h]
    rw [hstep]
    exact ih c s h

/-- C1: for any path P, at most one conversion task for P is active at any
instant.  The handler's single mutex serialises all accesses to the
in-progress set, so N near-simultaneous events for P are a sequence of N
_schedule calls; when P passes the filter and is not yet held, exactly one
of them spawns a task (the first, whose atomic check-then-add inserts P)
and the other N-1 are dropped because the membership check fails. -/
theorem c1_at_most_one_task_per_path (cfg : ConversionConfig) (files : List String)
    (p : String) (s : List String) (n : Nat)
    (hign : ConversionHandler._should_ignore cfg files p = false)
    (hfree : s.contains p = false) (hn : 0 < n) :
    ConversionHandler.scheduleEvents cfg files (List.replicate n p) s = (1, p :: s) := by
  obtain ⟨m, rfl⟩ : ∃ m, n = m + 1 := ⟨n - 1, by omega⟩
  unfold ConversionHandler.scheduleEvents
  rw [List.replicate_succ, List.foldl_cons]
  have hnm : p ∉ s := by simpa using hfree
  have hstep : ConversionHandler.scheduleStep cfg files (0, s) p = (1, p :: s) := by
    simp [ConversionHandler.scheduleStep, ConversionHandler._schedule, hign, hnm]
  rw [hstep]
  exact scheduleEvents_absorbed cfg files p m 1 (p :: s) (by simp)

/-- Witness for c1_at_most_one_task_per_path: three simultaneous events for
in/a.jpg, which exists and passes the filter, spawn exactly one task. -/
theorem c1_at_most_one_task_per_path_witness :
    ConversionHandler.scheduleEvents defaultConfig ["in/a.jpg"]
      (List.replicate 3 "in/a.jpg") [] = (1, ["in/a.jpg"]) :=
  c1_at_most_one_task_per_path defaultConfig ["in/a.jpg"] "in/a.jpg" [] 3
    (by decide) (by decide) (by decide)

/-- C2: the finally block of _process_path removes the path from the
in-progress set on every exit path of the worker: success, every failure
branch, the unstable-file early return, the defensive no-converter branch,
and an unexpected internal exception; the entry is never leaked. -/
theorem c2_in_flight_entry_always_released (cfg : ConversionConfig)
    (stableTrace : List (Option Nat)) (dec : ImageDecode) (run : FfmpegResult)
    (raised : Bool) (path : String) (in_progress : List String) (w : World) :
    path ∉ (ConversionHandler._process_path cfg stableTrace dec run raised path
      in_progress w).1 := by
  simp [ConversionHandler._process_path]

/-- C6 counterexample: a transiently missing file does not reset the
consecutive-stable-checks counter.  A poll that hits FileNotFoundError
leaves the counter at 2, and the trace size 5, size 5, missing, size 5,
size 5 already reaches stability for three required checks, which would be
impossible if the missing poll reset the counter. -/
theorem c6_counterexample_missing_does_not_reset :
    (wfrStep 3 { last_size := 5, stable_count := 2 } none).2.stable_count = 2 ∧
    wait_for_file_ready 3 [some 5, some 5, none, some 5, some 5] = true := by
  constructor
  · rfl
  · decide

/-- C6 amended: wait_for_file_ready resets its counter to zero whenever the
observed size changes (or is zero); a missing-file poll leaves both the
counter and the last-seen size untouched, counts as not stable, and does
not abort the wait; the not-found condition never raises (the embedded
loop is total on the missing observation). -/
theorem c6_amended_missing_poll_preserves_state (K : Nat) (st : WfrState)
    (rest : List (Option Nat)) (s : Nat)
    (hchange : ¬((s : Int) = st.last_size ∧ 0 < s)) :
    wfrStep K st none = (false, st) ∧
    wfrRun K st (none :: rest) = wfrRun K st rest ∧
    wfrStep K st (some s) = (false, { last_size := (s : Int), stable_count := 0 }) := by
  refine ⟨rfl, rfl, ?_⟩
  simp [wfrStep, hchange]

/-- Witness for c6_amended_missing_poll_preserves_state at a concrete state
with counter 2 and a changed size observation. -/
theorem c6_amended_missing_poll_preserves_state_witness :
    wfrStep 3 { last_size := 5, stable_count := 2 } none
        = (false, { last_size := 5, stable_count := 2 }) ∧
    wfrRun 3 { last_size := 5, stable_count := 2 } [none]
        = wfrRun 3 { last_size := 5, stable_count := 2 } [] ∧
    wfrStep 3 { last_size := 5, stable_count := 2 } (some 7)
        = (false, { last_size := 7, stable_count := 0 }) :=
  c6_amended_missing_poll_preserves_state 3 { last_size := 5, stable_count := 2 } [] 7
    (by decide)

/-- C5 counterexample: the hidden file .tmp.jpg is rejected by the live
filter, but the startup bulk pass invokes the image converter on it: the
hidden-file exclusion does not hold on the bulk-pass side of the claim. -/
theorem c5_counterexample_bulk_pass_converts_hidden :
    ConversionHandler._should_ignore defaultConfig ["in/.tmp.jpg"] "in/.tmp.jpg" = true ∧
    (process_existing_files defaultConfig (fun _ => ImageDecode.ok)
        (fun _ => FfmpegResult.success "") [{ name := ".tmp.jpg", isFile := true }]
        emptyWorld).invoked = ["in/.tmp.jpg"] := by
  constructor
  · decide
  · decide

/-- C5 amended: in the live event path a file whose name begins with a dot
is always ignored, regardless of its extension (the filter returns true for
it whatever the extension sets contain, so _schedule never spawns a task);
the startup bulk pass, however, performs no hidden-name check. -/
theorem c5_amended_live_path_ignores_hidden (cfg : ConversionConfig)
    (files : List String) (path : String) (in_progress : List String)
    (h : ConversionHandler.startsWithDot (pyName path) = true) :
    ConversionHandler._should_ignore cfg files path = true ∧
    ConversionHandler._schedule cfg files path in_progress = (false, in_progress) := by
  have hig : ConversionHandler._should_ignore cfg files path = true := by
    simp [ConversionHandler._should_ignore, h]
  exact ⟨hig, by simp [ConversionHandler._schedule, hig]⟩

/-- Witness for c5_amended_live_path_ignores_hidden on the hidden name
in/.secret.mov with a recognized video extension. -/
theorem c5_amended_live_path_ignores_hidden_witness :
    ConversionHandler._should_ignore defaultConfig ["in/.secret.mov"] "in/.secret.mov" = true ∧
    ConversionHandler._schedule defaultConfig ["in/.secret.mov"] "in/.secret.mov" []
      = (false, []) :=
  c5_amended_live_path_ignores_hidden defaultConfig ["in/.secret.mov"] "in/.secret.mov" []
    (by decide)

/-- C8: when ffmpeg exits with a nonzero status, the error is logged
together with the captured stderr text, and any partially written output
file is deleted, so no file is left at the destination path; this holds
whether or not the failing run left partial output behind. -/
theorem c8_nonzero_exit_reports_and_deletes (stderrText : String) (wroteOutput : Bool)
    (src dest_dir : String) (w : World) (out : String)
    (hout : out = dest_dir ++ "/" ++ pyStem (pyName src) ++ ".mp4")
    (habsent : out ∉ w.files) :
    (convert_video_to_mp4 (FfmpegResult.calledProcessError stderrText wroteOutput)
        src dest_dir w).1 = Outcome.failed stderrText ∧
    out ∉ (convert_video_to_mp4 (FfmpegResult.calledProcessError stderrText wroteOutput)
        src dest_dir w).2.files ∧
    (convert_video_to_mp4 (FfmpegResult.calledProcessError stderrText wroteOutput)
        src dest_dir w).2.log = w.log ++ [LogEntry.ffmpegFailed src stderrText] := by
  subst hout
  refine ⟨?_, ?_, ?_⟩ <;> simp [convert_video_to_mp4, habsent, List.mem_filter]

/-- Witness for c8_nonzero_exit_reports_and_deletes: ffmpeg fails on
in/clip.mov with diagnostic text and partial output written. -/
theorem c8_nonzero_exit_reports_and_deletes_witness :
    (convert_video_to_mp4 (FfmpegResult.calledProcessError "invalid codec" true)
        "in/clip.mov" "out/videos" emptyWorld).1 = Outcome.failed "invalid codec" ∧
    "out/videos/clip.mp4" ∉ (convert_video_to_mp4
        (FfmpegResult.calledProcessError "invalid codec" true)
        "in/clip.mov" "out/videos" emptyWorld).2.files ∧
    (convert_video_to_mp4 (FfmpegResult.calledProcessError "invalid codec" true)
        "in/clip.mov" "out/videos" emptyWorld).2.log
      = emptyWorld.log ++ [LogEntry.ffmpegFailed "in/clip.mov" "invalid codec"] :=
  c8_nonzero_exit_reports_and_deletes "invalid codec" true "in/clip.mov" "out/videos"
    emptyWorld "out/videos/clip.mp4" (by decide) (by decide)

/-- C9 counterexample: with the ffmpeg binary missing, processing two video
files logs the missing-binary error twice, once per file, not once
overall as the claim states. -/
theorem c9_counterexample_missing_tool_logged_per_file :
    ((process_existing_files defaultConfig (fun _ => ImageDecode.ok)
        (fun _ => FfmpegResult.fileNotFound)
        [{ name := "a.mov", isFile := true }, { name := "b.mov", isFile := true }]
        emptyWorld).log.count LogEntry.ffmpegNotFound) = 2 ∧
    ¬ ((process_existing_files defaultConfig (fun _ => ImageDecode.ok)
        (fun _ => FfmpegResult.fileNotFound)
        [{ name := "a.mov", isFile := true }, { name := "b.mov", isFile := true }]
        emptyWorld).log.count LogEntry.ffmpegNotFound = 1) := by
  constructor
  · decide
  · decide

/-- C9 amended: when the ffmpeg binary cannot be located, the condition is
caught and logged as an error on each affected conversion (once per file
reaching the invocation, not deduplicated to a single occurrence), the file
is skipped with no output produced, and the converter returns normally so
the watcher keeps running. -/
theorem c9_amended_missing_tool_logged_each_call (src dest_dir : String) (w : World)
    (out : String) (hout : out = dest_dir ++ "/" ++ pyStem (pyName src) ++ ".mp4")
    (habsent : out ∉ w.files) :
    (convert_video_to_mp4 FfmpegResult.fileNotFound src dest_dir w).1
      = Outcome.toolMissing ∧
    (convert_video_to_mp4 FfmpegResult.fileNotFound src dest_dir w).2.files = w.files ∧
    (convert_video_to_mp4 FfmpegResult.fileNotFound src dest_dir w).2.log
      = w.log ++ [LogEntry.ffmpegNotFound] ∧
    (convert_video_to_mp4 FfmpegResult.fileNotFound src dest_dir w).2.log.count
        LogEntry.ffmpegNotFound = w.log.count LogEntry.ffmpegNotFound + 1 := by
  subst hout
  refine ⟨?_, ?_, ?_, ?_⟩ <;> simp [convert_video_to_mp4, habsent, List.count_append]

/-- Witness for c9_amended_missing_tool_logged_each_call on in/clip.mov
against a world that already logged one earlier missing-binary error. -/
theorem c9_amended_missing_tool_logged_each_call_witness :
    (convert_video_to_mp4 FfmpegResult.fileNotFound "in/clip.mov" "out/videos"
        { files := [], log := [LogEntry.ffmpegNotFound], invoked := [], outcomes := [] }).1
      = Outcome.toolMissing ∧
    (convert_video_to_mp4 FfmpegResult.fileNotFound "in/clip.mov" "out/videos"
        { files := [], log := [LogEntry.ffmpegNotFound], invoked := [], outcomes := [] }).2.files
      = [] ∧
    (convert_video_to_mp4 FfmpegResult.fileNotFound "in/clip.mov" "out/videos"
        { files := [], log := [LogEntry.ffmpegNotFound], invoked := [], outcomes := [] }).2.log
      = [LogEntry.ffmpegNotFound] ++ [LogEntry.ffmpegNotFound] ∧
    (convert_video_to_mp4 FfmpegResult.fileNotFound "in/clip.mov" "out/videos"
        { files := [], log := [LogEntry.ffmpegNotFound], invoked := [], outcomes := [] }).2.log.count
        LogEntry.ffmpegNotFound
      = ([LogEntry.ffmpegNotFound] : List LogEntry).count LogEntry.ffmpegNotFound + 1 :=
  c9_amended_missing_tool_logged_each_call "in/clip.mov" "out/videos"
    { files := [], log := [LogEntry.ffmpegNotFound], invoked := [], outcomes := [] }
    "out/videos/clip.mp4" (by decide) (by decide)

/-- When the destination file exists, convert_image_to_png only logs the
skip: nothing is written, deleted or invoked. -/
theorem convert_image_skip (dec : ImageDecode) (src dest_dir : String) (w : World)
    (h : dest_dir ++ "/" ++ pyStem (pyName src) ++ ".png" ∈ w.files) :
    convert_image_to_png dec src dest_dir w =
      (Outcome.skippedExisting,
        { w with log := w.log ++
            [LogEntry.imageExists (dest_dir ++ "/" ++ pyStem (pyName src) ++ ".png")] }) := by
  simp [convert_image_to_png, h]

/-- When the destination file exists, convert_video_to_mp4 only logs the
skip: nothing is written, deleted or invoked. -/
theorem convert_video_skip (run : FfmpegResult) (src dest_dir : String) (w : World)
    (h : dest_dir ++ "/" ++ pyStem (pyName src) ++ ".mp4" ∈ w.files) :
    convert_video_to_mp4 run src dest_dir w =
      (Outcome.skippedExisting,
        { w with log := w.log ++
            [LogEntry.videoExists (dest_dir ++ "/" ++ pyStem (pyName src) ++ ".mp4")] }) := by
  simp [convert_video_to_mp4, h]

/-- A successful image conversion leaves the destination present and never
removes an existing file. -/
theorem convert_image_ok_files (src dest_dir : String) (w : World) :
    dest_dir ++ "/" ++ pyStem (pyName src) ++ ".png"
      ∈ (convert_image_to_png ImageDecode.ok src dest_dir w).2.files ∧
    ∀ x ∈ w.files, x ∈ (convert_image_to_png ImageDecode.ok src dest_dir w).2.files := by
  by_cases h : dest_dir ++ "/" ++ pyStem (pyName src) ++ ".png" ∈ w.files <;>
    simp [convert_image_to_png, h]
  intro x hx
  exact Or.inr hx

/-- A successful video conversion leaves the destination present and never
removes an existing file. -/
theorem convert_video_success_files (t : String) (src dest_dir : String) (w : World) :
    dest_dir ++ "/" ++ pyStem (pyName src) ++ ".mp4"
      ∈ (convert_video_to_mp4 (FfmpegResult.success t) src dest_dir w).2.files ∧
    ∀ x ∈ w.files, x ∈ (convert_video_to_mp4 (FfmpegResult.success t) src dest_dir w).2.files := by
  by_cases h : dest_dir ++ "/" ++ pyStem (pyName src) ++ ".mp4" ∈ w.files <;>
    simp [convert_video_to_mp4, h]
  intro x hx
  exact Or.inr hx

/-- An entry the bulk pass does not select leaves the world untouched. -/
theorem bulk_step_nonmatch (cfg : ConversionConfig) (dec : String → ImageDecode)
    (run : String → FfmpegResult) (w : World) (e : DirEntry)
    (h : bulkMatches cfg e = false) :
    bulk_step cfg dec run w e = w := by
  rcases hf : e.isFile with _ | _
  · simp [bulk_step, hf]
  · simp only [bulkMatches, hf, Bool.true_and] at h
    simp only [Bool.or_eq_false_iff] at h
    have hA : strLower (pySuffix e.name) ∉ cfg.image_exts := by simpa using h.1
    have hB : strLower (pySuffix e.name) ∉ cfg.video_exts := by simpa using h.2
    simp [bulk_step, hf, hA, hB]

/-- On a regular file with an image extension, a bulk step runs the image
conversion on the logged world and records its outcome. -/
theorem bulk_step_eq_image (cfg : ConversionConfig) (dec : String → ImageDecode)
    (run : String → FfmpegResult) (w : World) (e : DirEntry)
    (hfile : e.isFile = true) (himg : strLower (pySuffix e.name) ∈ cfg.image_exts) :
    bulk_step cfg dec run w e =
      { (convert_image_to_png (dec (fullPath cfg e)) (fullPath cfg e) cfg.image_output_dir
          { w with log := w.log ++ [LogEntry.processingExisting e.name] }).2 with
        outcomes := (convert_image_to_png (dec (fullPath cfg e)) (fullPath cfg e)
            cfg.image_output_dir
            { w with log := w.log ++ [LogEntry.processingExisting e.name] }).2.outcomes ++
          [(fullPath cfg e,
            (convert_image_to_png (dec (fullPath cfg e)) (fullPath cfg e) cfg.image_output_dir
              { w with log := w.log ++ [LogEntry.processingExisting e.name] }).1)] } := by
  simp [bulk_step, hfile, himg]

/-- On a regular file with a video (and not image) extension, a bulk step
runs the video conversion on the logged world and records its outcome. -/
theorem bulk_step_eq_video (cfg : ConversionConfig) (dec : String → ImageDecode)
    (run : String → FfmpegResult) (w : World) (e : DirEntry)
    (hfile : e.isFile = true) (himg : strLower (pySuffix e.name) ∉ cfg.image_exts)
    (hvid : strLower (pySuffix e.name) ∈ cfg.video_exts) :
    bulk_step cfg dec run w e =
      { (convert_video_to_mp4 (run (fullPath cfg e)) (fullPath cfg e) cfg.video_output_dir
          { w with log := w.log ++ [LogEntry.processingExisting e.name] }).2 with
        outcomes := (convert_video_to_mp4 (run (fullPath cfg e)) (fullPath cfg e)
            cfg.video_output_dir
            { w with log := w.log ++ [LogEntry.processingExisting e.name] }).2.outcomes ++
          [(fullPath cfg e,
            (convert_video_to_mp4 (run (fullPath cfg e)) (fullPath cfg e) cfg.video_output_dir
              { w with log := w.log ++ [LogEntry.processingExisting e.name] }).1)] } := by
  simp [bulk_step, hfile, himg, hvid]

/-- Unpack bulkMatches: the entry is a regular file whose lowercased suffix
is in the image set or in the video set. -/
theorem bulkMatches_elim (cfg : ConversionConfig) (e : DirEntry)
    (hm : bulkMatches cfg e = true) :
    e.isFile = true ∧ (strLower (pySuffix e.name) ∈ cfg.image_exts ∨
      strLower (pySuffix e.name) ∈ cfg.video_exts) := by
  simpa [bulkMatches] using hm

/-- bulkOutPath on an image-classified entry. -/
theorem bulkOutPath_image (cfg : ConversionConfig) (e : DirEntry)
    (himg : strLower (pySuffix e.name) ∈ cfg.image_exts) :
    bulkOutPath cfg e
      = cfg.image_output_dir ++ "/" ++ pyStem (pyName (fullPath cfg e)) ++ ".png" := by
  simp [bulkOutPath, himg]

/-- bulkOutPath on a video-classified entry. -/
theorem bulkOutPath_video (cfg : ConversionConfig) (e : DirEntry)
    (himg : strLower (pySuffix e.name) ∉ cfg.image_exts) :
    bulkOutPath cfg e
      = cfg.video_output_dir ++ "/" ++ pyStem (pyName (fullPath cfg e)) ++ ".mp4" := by
  simp [bulkOutPath, himg]

/-- With succeeding converter oracles, one bulk step preserves every
existing file and establishes the selected entry's output. -/
theorem bulk_step_files (cfg : ConversionConfig) (dec : String → ImageDecode)
    (run : String → FfmpegResult) (hdec : ∀ p, dec p = ImageDecode.ok)
    (hrun : ∀ p, ∃ t, run p = FfmpegResult.success t) (w : World) (e : DirEntry) :
    (∀ x ∈ w.files, x ∈ (bulk_step cfg dec run w e).files) ∧
    (bulkMatches cfg e = true → bulkOutPath cfg e ∈ (bulk_step cfg dec run w e).files) := by
  rcases hm : bulkMatches cfg e with _ | _
  · rw [bulk_step_nonmatch cfg dec run w e hm]
    exact ⟨fun x hx => hx, by simp⟩
  · obtain ⟨hfile, hsuf⟩ := bulkMatches_elim cfg e hm
    by_cases himg : strLower (pySuffix e.name) ∈ cfg.image_exts
    · rw [bulk_step_eq_image cfg dec run w e hfile himg, hdec (fullPath cfg e),
        bulkOutPath_image cfg e himg]
      have h2 := convert_image_ok_files (fullPath cfg e)
        cfg.image_output_dir { w with log := w.log ++ [LogEntry.processingExisting e.name] }
      exact ⟨fun x hx => h2.2 x hx, fun _ => h2.1⟩
    · have hvid : strLower (pySuffix e.name) ∈ cfg.video_exts := hsuf.resolve_left himg
      obtain ⟨t, ht⟩ := hrun (fullPath cfg e)
      rw [bulk_step_eq_video cfg dec run w e hfile himg hvid, ht,
        bulkOutPath_video cfg e himg]
      have h2 := convert_video_success_files t (fullPath cfg e)
        cfg.video_output_dir { w with log := w.log ++ [LogEntry.processingExisting e.name] }
      exact ⟨fun x hx => h2.2 x hx, fun _ => h2.1⟩

/-- With succeeding converter oracles, the bulk fold preserves files. -/
theorem bulk_fold_files_mono (cfg : ConversionConfig) (dec : String → ImageDecode)
    (run : String → FfmpegResult) (hdec : ∀ p, dec p = ImageDecode.ok)
    (hrun : ∀ p, ∃ t, run p = FfmpegResult.success t) :
    ∀ (es : List DirEntry) (w : World) (x : String), x ∈ w.files →
      x ∈ (es.foldl (bulk_step cfg dec run) w).files := by
  intro es
  induction es with
  | nil => intro w x hx; exact hx
  | cons e rest ih =>
    intro w x hx
    rw [List.foldl_cons]
    exact ih _ x ((bulk_step_files cfg dec run hdec hrun w e).1 x hx)

/-- With succeeding converter oracles, after the bulk fold the output of
every selected entry exists. -/
theorem bulk_fold_outputs_present (cfg : ConversionConfig) (dec : String → ImageDecode)
    (run : String → FfmpegResult) (hdec : ∀ p, dec p = ImageDecode.ok)
    (hrun : ∀ p, ∃ t, run p = FfmpegResult.success t) :
    ∀ (es : List DirEntry) (w : World) (e : DirEntry), e ∈ es →
      bulkMatches cfg e = true →
      bulkOutPath cfg e ∈ (es.foldl (bulk_step cfg dec run) w).files := by
  intro es
  induction es with
  | nil => intro w e he; exact absurd he (List.not_mem_nil e)
  | cons f rest ih =>
    intro w e he hm
    rw [List.foldl_cons]
    rcases List.mem_cons.mp he with rfl | htail
    · exact bulk_fold_files_mono cfg dec run hdec hrun rest _ _
        ((bulk_step_files cfg dec run hdec hrun w e).2 hm)
    · exact ih _ e htail hm

/-- A bulk step on a selected entry whose output already exists changes no
file, invokes no converter, and records the SkippedExisting outcome. -/
theorem bulk_step_skip (cfg : ConversionConfig) (dec : String → ImageDecode)
    (run : String → FfmpegResult) (w : World) (e : DirEntry)
    (hm : bulkMatches cfg e = true) (hex : bulkOutPath cfg e ∈ w.files) :
    (bulk_step cfg dec run w e).files = w.files ∧
    (bulk_step cfg dec run w e).invoked = w.invoked ∧
    (bulk_step cfg dec run w e).outcomes
      = w.outcomes ++ [(fullPath cfg e, Outcome.skippedExisting)] := by
  obtain ⟨hfile, hsuf⟩ := bulkMatches_elim cfg e hm
  by_cases himg : strLower (pySuffix e.name) ∈ cfg.image_exts
  · rw [bulkOutPath_image cfg e himg] at hex
    have hskip := convert_image_skip (dec (fullPath cfg e)) (fullPath cfg e)
      cfg.image_output_dir { w with log := w.log ++ [LogEntry.processingExisting e.name] } hex
    rw [bulk_step_eq_image cfg dec run w e hfile himg, hskip]
    exact ⟨rfl, rfl, rfl⟩
  · have hvid : strLower (pySuffix e.name) ∈ cfg.video_exts := hsuf.resolve_left himg
    rw [bulkOutPath_video cfg e himg] at hex
    have hskip := convert_video_skip (run (fullPath cfg e)) (fullPath cfg e)
      cfg.video_output_dir { w with log := w.log ++ [LogEntry.processingExisting e.name] } hex
    rw [bulk_step_eq_video cfg dec run w e hfile himg hvid, hskip]
    exact ⟨rfl, rfl, rfl⟩

/-- Unfolding equation for one step of the polling loop. -/
theorem wfrRun_cons (K : Nat) (st : WfrState) (obs : Option Nat)
    (rest : List (Option Nat)) :
    wfrRun K st (obs :: rest)
      = if (wfrStep K st obs).1 then true else wfrRun K (wfrStep K st obs).2 rest := rfl

/-- Peeling one observation off a stable run: the run either starts at the
head (the head size is positive and the next K entries repeat it) or lies
entirely in the tail. -/
theorem hasStableRun_cons (K s : Nat) (l : List Nat) :
    hasStableRun K (s :: l) ↔
      (K ≤ l.length ∧ 0 < s ∧ ∀ i < K, l.getD i 0 = s) ∨ hasStableRun K l := by
  constructor
  · rintro ⟨j, hj, hpos, hall⟩
    cases j with
    | zero =>
      refine Or.inl ⟨by simp at hj; omega, by simpa using hpos, fun i hi => ?_⟩
      have := hall (i + 1) (by omega) (by omega)
      simpa using this
    | succ j' =>
      refine Or.inr ⟨j', by simp at hj; omega, by simpa using hpos, fun i h1 h2 => ?_⟩
      have := hall (i + 1) (by omega) (by omega)
      simpa using this
  · rintro (⟨hlen, hpos, hall⟩ | ⟨j, hj, hpos, hall⟩)
    · refine ⟨0, by simp; omega, by simpa using hpos, fun i _ h2 => ?_⟩
      cases i with
      | zero => rfl
      | succ i' =>
        have := hall i' (by omega)
        simpa using this
    · refine ⟨j + 1, by simp; omega, by simpa using hpos, fun i h1 h2 => ?_⟩
      obtain ⟨i', rfl⟩ : ∃ i', i = i' + 1 := ⟨i - 1, by omega⟩
      have := hall i' (by omega) (by omega)
      simpa using this

/-- Over the identity, filterMap drops a missing observation. -/
theorem filterMap_id_cons_none (rest : List (Option Nat)) :
    (none :: rest).filterMap id = rest.filterMap id := rfl

/-- Over the identity, filterMap keeps a successful observation. -/
theorem filterMap_id_cons_some (s : Nat) (rest : List (Option Nat)) :
    (some s :: rest).filterMap id = s :: rest.filterMap id := rfl

/-- Characterisation of the polling loop from an arbitrary reachable state
(carried last size and counter below the threshold), over traces in which
every poll observes a size: it returns true exactly when the carried run
completes within the first K - c polls, or some fresh stable run occurs. -/
theorem wfrRun_true_iff (K : Nat) (hK : 0 < K) :
    ∀ (l : List Nat) (last : Int) (c : Nat), c < K →
      (wfrRun K { last_size := last, stable_count := c } (l.map some) = true ↔
        (0 < last ∧ K - c ≤ l.length ∧ ∀ i < K - c, ((l.getD i 0 : Int) = last)) ∨
        hasStableRun K l) := by
  intro l
  induction l with
  | nil =>
    intro last c hc
    constructor
    · intro h
      exact absurd h (by simp [wfrRun])
    · rintro (⟨_, hlen, _⟩ | ⟨j, hj, _, _⟩)
      · simp at hlen
        omega
      · simp at hj
  | cons s l ih =>
    intro last c hc
    rw [List.map_cons, wfrRun_cons]
    by_cases hcond : ((s : Int) = last ∧ 0 < s)
    · have hstep : wfrStep K { last_size := last, stable_count := c } (some s)
          = (decide (c + 1 ≥ K), { last_size := last, stable_count := c + 1 }) := by
        simp [wfrStep, hcond]
      rw [hstep]
      have hlastpos : 0 < last := by
        have : (0 : Int) < (s : Int) := by exact_mod_cast hcond.2
        omega
      by_cases hge : c + 1 ≥ K
      · rw [if_pos (decide_eq_true hge)]
        have hKc : K - c = 1 := by omega
        refine iff_of_true rfl (Or.inl ⟨hlastpos, by simp [hKc], fun i hi => ?_⟩)
        obtain rfl : i = 0 := by omega
        simpa using hcond.1
      · rw [if_neg (by simp [hge])]
        rw [ih last (c + 1) (by omega)]
        have hKc : K - c = (K - (c + 1)) + 1 := by omega
        constructor
        · rintro (⟨_, hlen, hall⟩ | hr)
          · refine Or.inl ⟨hlastpos, by simp; omega, fun i hi => ?_⟩
            cases i with
            | zero => simpa using hcond.1
            | succ i' =>
              have := hall i' (by omega)
              simpa using this
          · exact Or.inr ((hasStableRun_cons K s l).mpr (Or.inr hr))
        · rintro (⟨_, hlen, hall⟩ | hr)
          · refine Or.inl ⟨hlastpos, by simp at hlen; omega, fun i hi => ?_⟩
            have := hall (i + 1) (by omega)
            simpa using this
          · rcases (hasStableRun_cons K s l).mp hr with ⟨hlen, _, hall⟩ | hr'
            · refine Or.inl ⟨hlastpos, by omega, fun i hi => ?_⟩
              rw [hall i (by omega)]
              exact hcond.1
            · exact Or.inr hr'
    · have hstep : wfrStep K { last_size := last, stable_count := c } (some s)
          = (false, { last_size := (s : Int), stable_count := 0 }) := by
        simp [wfrStep, hcond]
      rw [hstep]
      rw [if_neg (by simp)]
      rw [ih (s : Int) 0 hK]
      have hgoalleft : ¬(0 < last ∧ K - c ≤ (s :: l).length ∧
          ∀ i < K - c, (((s :: l).getD i 0 : Int) = last)) := by
        rintro ⟨hpos, _, hall⟩
        have h0 := hall 0 (by omega)
        simp at h0
        have hspos : 0 < s := by
          have : (0 : Int) < (s : Int) := by rw [h0]; exact hpos
          exact_mod_cast this
        exact hcond ⟨h0, hspos⟩
      constructor
      · rintro (⟨hspos, hlen, hall⟩ | hr)
        · refine Or.inr ((hasStableRun_cons K s l).mpr (Or.inl ⟨by simpa using hlen,
            by exact_mod_cast hspos, fun i hi => ?_⟩))
          have := hall i (by omega)
          exact_mod_cast this
        · exact Or.inr ((hasStableRun_cons K s l).mpr (Or.inr hr))
      · rintro (habs | hr)
        · exact absurd habs hgoalleft
        · rcases (hasStableRun_cons K s l).mp hr with ⟨hlen, hspos, hall⟩ | hr'
          · refine Or.inl ⟨by exact_mod_cast hspos, by simpa using hlen, fun i hi => ?_⟩
            rw [hall i (by omega)]
          · exact Or.inr hr'

/-- C7: wait_for_file_ready returns true exactly when some run of
requiredStableChecks consecutive polls each observe a size unchanged from
the previous observation and strictly greater than zero (a stable run of
K+1 equal positive observations); a zero size never counts toward
stability, and with no such run the exhausted trace (the timeout) yields
false.  Stated over traces in which every poll observes a size. -/
theorem c7_stable_run_characterisation (K : Nat) (hK : 0 < K) (sizes : List Nat) :
    wait_for_file_ready K (sizes.map some) = true ↔ hasStableRun K sizes := by
  rw [wait_for_file_ready, wfrRun_true_iff K hK sizes (-1) 0 hK]
  constructor
  · rintro (⟨hneg, _⟩ | hr)
    · exact absurd hneg (by norm_num)
    · exact hr
  · exact Or.inr

/-- Witness for c7_stable_run_characterisation with the source's default of
three required stable checks, on the trace 7, 7, 7, 7. -/
theorem c7_stable_run_characterisation_witness :
    0 < 3 ∧ (wait_for_file_ready 3 ([7, 7, 7, 7].map some) = true ↔ hasStableRun 3 [7, 7, 7, 7]) :=
  ⟨by decide, c7_stable_run_characterisation 3 (by decide) [7, 7, 7, 7]⟩

/-- From any start state, returning true requires at least K - c successful
size observations, plus one more when the carried last size is the initial
-1 (negative, matching no real size). -/
theorem wfr_true_min_observations (K : Nat) :
    ∀ (t : List (Option Nat)) (last : Int) (c : Nat),
      wfrRun K { last_size := last, stable_count := c } t = true →
      K - c + (if last < 0 then 1 else 0) ≤ (t.filterMap id).length := by
  intro t
  induction t with
  | nil => intro last c h; exact absurd h (by simp [wfrRun])
  | cons obs rest ih =>
    intro last c h
    cases obs with
    | none =>
      rw [wfrRun_cons] at h
      simp only [wfrStep, Bool.false_eq_true, if_false] at h
      rw [filterMap_id_cons_none]
      exact ih last c h
    | some s =>
      have hs0 : (0 : Int) ≤ (s : Int) := Int.natCast_nonneg s
      rw [wfrRun_cons] at h
      rw [filterMap_id_cons_some, List.length_cons]
      by_cases hcond : ((s : Int) = last ∧ 0 < s)
      · have hstep : wfrStep K { last_size := last, stable_count := c } (some s)
            = (decide (c + 1 ≥ K), { last_size := last, stable_count := c + 1 }) := by
          simp [wfrStep, hcond]
        rw [hstep] at h
        have hlast : ¬ last < 0 := by omega
        rw [if_neg hlast]
        by_cases hge : c + 1 ≥ K
        · omega
        · rw [if_neg (by simp [hge])] at h
          have := ih last (c + 1) h
          rw [if_neg hlast] at this
          omega
      · have hstep : wfrStep K { last_size := last, stable_count := c } (some s)
            = (false, { last_size := (s : Int), stable_count := 0 }) := by
          simp [wfrStep, hcond]
        rw [hstep] at h
        rw [if_neg (by simp)] at h
        have := ih (s : Int) 0 h
        rw [if_neg (by omega)] at this
        have hite : (if last < 0 then 1 else 0) ≤ 1 := by split <;> omega
        omega

/-- C10: wait_for_file_ready can only return true after at least
requiredStableChecks + 1 successful size observations: the first successful
observation merely records the size, because the initial last size of -1
matches no real size, so it never increments the counter or returns. -/
theorem c10_needs_k_plus_one_observations (K : Nat) (trace : List (Option Nat))
    (h : wait_for_file_ready K trace = true) :
    K + 1 ≤ (trace.filterMap id).length ∧
    ∀ (c s : Nat), wfrStep K { last_size := -1, stable_count := c } (some s)
      = (false, { last_size := (s : Int), stable_count := 0 }) := by
  constructor
  · have hmin := wfr_true_min_observations K trace (-1) 0 h
    rw [if_pos (by norm_num)] at hmin
    omega
  · intro c s
    have hcond : ¬((s : Int) = (-1 : Int) ∧ 0 < s) := by
      rintro ⟨h1, _⟩
      have := Int.natCast_nonneg s
      omega
    simp [wfrStep, hcond]

/-- Witness for c10_needs_k_plus_one_observations: with three required
checks, a trace that succeeds has at least four successful observations. -/
theorem c10_needs_k_plus_one_observations_witness :
    3 + 1 ≤ (([some 9, some 9, some 9, some 9] : List (Option Nat)).filterMap id).length :=
  (c10_needs_k_plus_one_observations 3 [some 9, some 9, some 9, some 9] (by decide)).1

/-- When every selected entry's output already exists, the whole bulk fold
writes nothing, invokes nothing, and records SkippedExisting for exactly
the selected entries, in order; this holds for arbitrary oracles, because
the existing-output check precedes every invocation. -/
theorem bulk_fold_skip (cfg : ConversionConfig) (dec : String → ImageDecode)
    (run : String → FfmpegResult) :
    ∀ (es : List DirEntry) (w : World),
      (∀ e ∈ es, bulkMatches cfg e = true → bulkOutPath cfg e ∈ w.files) →
      (es.foldl (bulk_step cfg dec run) w).files = w.files ∧
      (es.foldl (bulk_step cfg dec run) w).invoked = w.invoked ∧
      (es.foldl (bulk_step cfg dec run) w).outcomes
        = w.outcomes ++ (es.filter (fun e => bulkMatches cfg e)).map
            (fun e => (fullPath cfg e, Outcome.skippedExisting)) := by
  intro es
  induction es with
  | nil => intro w _; exact ⟨rfl, rfl, by simp⟩
  | cons e rest ih =>
    intro w h
    rw [List.foldl_cons]
    rcases hm : bulkMatches cfg e with _ | _
    · rw [bulk_step_nonmatch cfg dec run w e hm]
      have := ih w (fun e' he' => h e' (List.mem_cons_of_mem e he'))
      refine ⟨this.1, this.2.1, ?_⟩
      rw [this.2.2, List.filter_cons_of_neg (by simp [hm])]
    · have hex := h e (List.mem_cons_self e rest) hm
      obtain ⟨hf, hi, ho⟩ := bulk_step_skip cfg dec run w e hm hex
      have hrest : ∀ e' ∈ rest, bulkMatches cfg e' = true →
          bulkOutPath cfg e' ∈ (bulk_step cfg dec run w e).files := by
        intro e' he' hm'
        rw [hf]
        exact h e' (List.mem_cons_of_mem e he') hm'
      obtain ⟨rf, ri, ro⟩ := ih (bulk_step cfg dec run w e) hrest
      refine ⟨by rw [rf, hf], by rw [ri, hi], ?_⟩
      rw [ro, ho, List.filter_cons_of_pos (by simp [hm]), List.map_cons,
        List.append_assoc]
      rfl

/-- A successful image conversion with an absent destination writes the
output, appends the source to the invoked list, and logs the conversion. -/
theorem convert_image_ok_absent (src dest_dir : String) (w : World)
    (h : dest_dir ++ "/" ++ pyStem (pyName src) ++ ".png" ∉ w.files) :
    convert_image_to_png ImageDecode.ok src dest_dir w =
      (Outcome.converted (dest_dir ++ "/" ++ pyStem (pyName src) ++ ".png"),
        { w with files := (dest_dir ++ "/" ++ pyStem (pyName src) ++ ".png") :: w.files,
                 invoked := w.invoked ++ [src],
                 log := w.log ++ [LogEntry.convertedImage (pyName src)
                   (dest_dir ++ "/" ++ pyStem (pyName src) ++ ".png")] }) := by
  simp [convert_image_to_png, h]

/-- A successful video conversion with an absent destination writes the
output, appends the source to the invoked list, and logs the conversion. -/
theorem convert_video_success_absent (t : String) (src dest_dir : String) (w : World)
    (h : dest_dir ++ "/" ++ pyStem (pyName src) ++ ".mp4" ∉ w.files) :
    convert_video_to_mp4 (FfmpegResult.success t) src dest_dir w =
      (Outcome.converted (dest_dir ++ "/" ++ pyStem (pyName src) ++ ".mp4"),
        { w with files := (dest_dir ++ "/" ++ pyStem (pyName src) ++ ".mp4") :: w.files,
                 invoked := w.invoked ++ [src],
                 log := w.log ++ [LogEntry.convertedVideo (pyName src)
                   (dest_dir ++ "/" ++ pyStem (pyName src) ++ ".mp4")] }) := by
  simp [convert_video_to_mp4, h]

/-- With succeeding converter oracles, a bulk step on a selected entry whose
output is absent invokes the converter on exactly that entry's full path and
adds exactly that entry's output file. -/
theorem bulk_step_convert (cfg : ConversionConfig) (dec : String → ImageDecode)
    (run : String → FfmpegResult) (hdec : ∀ p, dec p = ImageDecode.ok)
    (hrun : ∀ p, ∃ t, run p = FfmpegResult.success t) (w : World) (e : DirEntry)
    (hm : bulkMatches cfg e = true) (habs : bulkOutPath cfg e ∉ w.files) :
    (bulk_step cfg dec run w e).invoked = w.invoked ++ [fullPath cfg e] ∧
    (bulk_step cfg dec run w e).files = bulkOutPath cfg e :: w.files := by
  obtain ⟨hfile, hsuf⟩ := bulkMatches_elim cfg e hm
  by_cases himg : strLower (pySuffix e.name) ∈ cfg.image_exts
  · rw [bulkOutPath_image cfg e himg] at habs ⊢
    have habs' : cfg.image_output_dir ++ "/" ++ pyStem (pyName (fullPath cfg e)) ++ ".png"
        ∉ ({ w with log := w.log ++ [LogEntry.processingExisting e.name] } : World).files :=
      habs
    rw [bulk_step_eq_image cfg dec run w e hfile himg, hdec (fullPath cfg e),
      convert_image_ok_absent (fullPath cfg e) cfg.image_output_dir _ habs']
    exact ⟨rfl, rfl⟩
  · have hvid : strLower (pySuffix e.name) ∈ cfg.video_exts := hsuf.resolve_left himg
    obtain ⟨t, ht⟩ := hrun (fullPath cfg e)
    rw [bulkOutPath_video cfg e himg] at habs ⊢
    have habs' : cfg.video_output_dir ++ "/" ++ pyStem (pyName (fullPath cfg e)) ++ ".mp4"
        ∉ ({ w with log := w.log ++ [LogEntry.processingExisting e.name] } : World).files :=
      habs
    rw [bulk_step_eq_video cfg dec run w e hfile himg hvid, ht,
      convert_video_success_absent t (fullPath cfg e) cfg.video_output_dir _ habs']
    exact ⟨rfl, rfl⟩

/-- With succeeding converter oracles, pairwise-distinct output paths among
the selected entries, and no output pre-existing, the bulk fold invokes the
converters on exactly the selected entries' full paths, in list order. -/
theorem bulk_fold_invoked (cfg : ConversionConfig) (dec : String → ImageDecode)
    (run : String → FfmpegResult) (hdec : ∀ p, dec p = ImageDecode.ok)
    (hrun : ∀ p, ∃ t, run p = FfmpegResult.success t) :
    ∀ (es : List DirEntry) (w : World),
      (∀ e ∈ es, bulkMatches cfg e = true → bulkOutPath cfg e ∉ w.files) →
      (es.filter (fun e => bulkMatches cfg e)).Pairwise
        (fun a b => bulkOutPath cfg a ≠ bulkOutPath cfg b) →
      (es.foldl (bulk_step cfg dec run) w).invoked
        = w.invoked ++ (es.filter (fun e => bulkMatches cfg e)).map (fullPath cfg) := by
  intro es
  induction es with
  | nil => intro w _ _; simp
  | cons e rest ih =>
    intro w habs hpair
    rw [List.foldl_cons]
    rcases hm : bulkMatches cfg e with _ | _
    · rw [bulk_step_nonmatch cfg dec run w e hm]
      rw [List.filter_cons_of_neg (by simp [hm])] at hpair ⊢
      exact ih w (fun e' he' => habs e' (List.mem_cons_of_mem e he')) hpair
    · rw [List.filter_cons_of_pos (by simp [hm])] at hpair ⊢
      obtain ⟨hhead, htailpair⟩ := List.pairwise_cons.mp hpair
      obtain ⟨hinv, hfiles⟩ := bulk_step_convert cfg dec run hdec hrun w e hm
        (habs e (List.mem_cons_self e rest) hm)
      have habs' : ∀ e' ∈ rest, bulkMatches cfg e' = true →
          bulkOutPath cfg e' ∉ (bulk_step cfg dec run w e).files := by
        intro e' he' hm'
        rw [hfiles]
        intro hmem
        rcases List.mem_cons.mp hmem with heq | hmem'
        · exact hhead e' (List.mem_filter.mpr ⟨he', by simp [hm']⟩) heq.symm
        · exact habs e' (List.mem_cons_of_mem e he') hm' hmem'
      rw [ih (bulk_step cfg dec run w e) habs' htailpair, hinv, List.map_cons,
        List.append_assoc]
      rfl

/-- C3: an existing destination is never overwritten.  If the output file
(the input stem with the fixed target extension under the media-class
output directory) already exists, the converter capability is not invoked
(the invoked list is unchanged), the outcome is SkippedExisting, and the
file set is unchanged, for either media class and any oracle; consequently,
after a bulk pass whose conversions succeed, a second bulk pass over the
unchanged input directory invokes nothing, changes no file, and records
SkippedExisting for every selected entry. -/
theorem c3_idempotent_never_overwrites (cfg : ConversionConfig)
    (dec : String → ImageDecode) (run : String → FfmpegResult)
    (hdec : ∀ p, dec p = ImageDecode.ok)
    (hrun : ∀ p, ∃ t, run p = FfmpegResult.success t)
    (entries : List DirEntry) (w0 : World)
    (dec2 : String → ImageDecode) (run2 : String → FfmpegResult)
    (decI : ImageDecode) (runV : FfmpegResult) (src dest_dir : String) (wi : World)
    (himg : dest_dir ++ "/" ++ pyStem (pyName src) ++ ".png" ∈ wi.files)
    (hvid : dest_dir ++ "/" ++ pyStem (pyName src) ++ ".mp4" ∈ wi.files) :
    ((convert_image_to_png decI src dest_dir wi).1 = Outcome.skippedExisting ∧
     (convert_image_to_png decI src dest_dir wi).2.files = wi.files ∧
     (convert_image_to_png decI src dest_dir wi).2.invoked = wi.invoked) ∧
    ((convert_video_to_mp4 runV src dest_dir wi).1 = Outcome.skippedExisting ∧
     (convert_video_to_mp4 runV src dest_dir wi).2.files = wi.files ∧
     (convert_video_to_mp4 runV src dest_dir wi).2.invoked = wi.invoked) ∧
    ((process_existing_files cfg dec2 run2 entries
        (process_existing_files cfg dec run entries w0)).files
      = (process_existing_files cfg dec run entries w0).files ∧
     (process_existing_files cfg dec2 run2 entries
        (process_existing_files cfg dec run entries w0)).invoked
      = (process_existing_files cfg dec run entries w0).invoked ∧
     (process_existing_files cfg dec2 run2 entries
        (process_existing_files cfg dec run entries w0)).outcomes
      = (process_existing_files cfg dec run entries w0).outcomes ++
        ((sortByName entries).filter (fun e => bulkMatches cfg e)).map
          (fun e => (fullPath cfg e, Outcome.skippedExisting))) := by
  refine ⟨?_, ?_, ?_⟩
  · rw [convert_image_skip decI src dest_dir wi himg]
    exact ⟨rfl, rfl, rfl⟩
  · rw [convert_video_skip runV src dest_dir wi hvid]
    exact ⟨rfl, rfl, rfl⟩
  · have hpost : ∀ e ∈ sortByName entries, bulkMatches cfg e = true →
        bulkOutPath cfg e ∈ (process_existing_files cfg dec run entries w0).files :=
      fun e he hm => bulk_fold_outputs_present cfg dec run hdec hrun
        (sortByName entries) w0 e he hm
    exact bulk_fold_skip cfg dec2 run2 (sortByName entries)
      (process_existing_files cfg dec run entries w0) hpost

/-- Witness for c3_idempotent_never_overwrites: one image file pic.jpg, a
successful first bulk pass, a second pass with arbitrary failing oracles,
and a world where both destinations for in/p.jpg exist. -/
theorem c3_idempotent_never_overwrites_witness :
    ((convert_image_to_png ImageDecode.exn "in/p.jpg" "d"
        { files := ["d/p.png", "d/p.mp4"], log := [], invoked := [], outcomes := [] }).1
      = Outcome.skippedExisting ∧
     (convert_image_to_png ImageDecode.exn "in/p.jpg" "d"
        { files := ["d/p.png", "d/p.mp4"], log := [], invoked := [], outcomes := [] }).2.files
      = ({ files := ["d/p.png", "d/p.mp4"], log := [], invoked := [], outcomes := [] } : World).files ∧
     (convert_image_to_png ImageDecode.exn "in/p.jpg" "d"
        { files := ["d/p.png", "d/p.mp4"], log := [], invoked := [], outcomes := [] }).2.invoked
      = ({ files := ["d/p.png", "d/p.mp4"], log := [], invoked := [], outcomes := [] } : World).invoked) ∧
    ((convert_video_to_mp4 (FfmpegResult.calledProcessError "boom" true) "in/p.jpg" "d"
        { files := ["d/p.png", "d/p.mp4"], log := [], invoked := [], outcomes := [] }).1
      = Outcome.skippedExisting ∧
     (convert_video_to_mp4 (FfmpegResult.calledProcessError "boom" true) "in/p.jpg" "d"
        { files := ["d/p.png", "d/p.mp4"], log := [], invoked := [], outcomes := [] }).2.files
      = ({ files := ["d/p.png", "d/p.mp4"], log := [], invoked := [], outcomes := [] } : World).files ∧
     (convert_video_to_mp4 (FfmpegResult.calledProcessError "boom" true) "in/p.jpg" "d"
        { files := ["d/p.png", "d/p.mp4"], log := [], invoked := [], outcomes := [] }).2.invoked
      = ({ files := ["d/p.png", "d/p.mp4"], log := [], invoked := [], outcomes := [] } : World).invoked) ∧
    ((process_existing_files defaultConfig (fun _ => ImageDecode.exn)
        (fun _ => FfmpegResult.fileNotFound) [{ name := "pic.jpg", isFile := true }]
        (process_existing_files defaultConfig (fun _ => ImageDecode.ok)
          (fun _ => FfmpegResult.success "") [{ name := "pic.jpg", isFile := true }]
          emptyWorld)).files
      = (process_existing_files defaultConfig (fun _ => ImageDecode.ok)
          (fun _ => FfmpegResult.success "") [{ name := "pic.jpg", isFile := true }]
          emptyWorld).files ∧
     (process_existing_files defaultConfig (fun _ => ImageDecode.exn)
        (fun _ => FfmpegResult.fileNotFound) [{ name := "pic.jpg", isFile := true }]
        (process_existing_files defaultConfig (fun _ => ImageDecode.ok)
          (fun _ => FfmpegResult.success "") [{ name := "pic.jpg", isFile := true }]
          emptyWorld)).invoked
      = (process_existing_files defaultConfig (fun _ => ImageDecode.ok)
          (fun _ => FfmpegResult.success "") [{ name := "pic.jpg", isFile := true }]
          emptyWorld).invoked ∧
     (process_existing_files defaultConfig (fun _ => ImageDecode.exn)
        (fun _ => FfmpegResult.fileNotFound) [{ name := "pic.jpg", isFile := true }]
        (process_existing_files defaultConfig (fun _ => ImageDecode.ok)
          (fun _ => FfmpegResult.success "") [{ name := "pic.jpg", isFile := true }]
          emptyWorld)).outcomes
      = (process_existing_files defaultConfig (fun _ => ImageDecode.ok)
          (fun _ => FfmpegResult.success "") [{ name := "pic.jpg", isFile := true }]
          emptyWorld).outcomes ++
        ((sortByName [{ name := "pic.jpg", isFile := true }]).filter
          (fun e => bulkMatches defaultConfig e)).map
          (fun e => (fullPath defaultConfig e, Outcome.skippedExisting))) :=
  c3_idempotent_never_overwrites defaultConfig (fun _ => ImageDecode.ok)
    (fun _ => FfmpegResult.success "") (fun _ => rfl) (fun _ => ⟨"", rfl⟩)
    [{ name := "pic.jpg", isFile := true }] emptyWorld
    (fun _ => ImageDecode.exn) (fun _ => FfmpegResult.fileNotFound)
    ImageDecode.exn (FfmpegResult.calledProcessError "boom" true) "in/p.jpg" "d"
    { files := ["d/p.png", "d/p.mp4"], log := [], invoked := [], outcomes := [] }
    (by decide) (by decide)

/-- C4 counterexample: the startup bulk pass does not apply the dispatcher's
filter step.  The hidden file .part.mov is rejected by the live filter of
step 2, yet the bulk pass invokes the video converter on it, so the bulk
pass does not apply the same steps 2-9 as the live dispatcher. -/
theorem c4_counterexample_bulk_skips_filter :
    ConversionHandler._should_ignore defaultConfig ["in/.part.mov"] "in/.part.mov" = true ∧
    (process_existing_files defaultConfig (fun _ => ImageDecode.ok)
        (fun _ => FfmpegResult.success "") [{ name := ".part.mov", isFile := true }]
        emptyWorld).invoked = ["in/.part.mov"] := by
  constructor
  · decide
  · decide

/-- C4 amended: the startup bulk pass, unless disabled by configuration,
sequentially folds over the regular files of the input directory sorted by
name and applies only extension classification and conversion with the
existing-output skip: every regular file whose lowercased suffix matches a
configured set has its converter invoked (hidden names included — there is
no hidden-file rejection, no in-flight acquisition, and no stabilization
wait), and nothing else is invoked. -/
theorem c4_amended_bulk_pass_extension_filter_only (cfg : ConversionConfig)
    (dec : String → ImageDecode) (run : String → FfmpegResult)
    (hdec : ∀ p, dec p = ImageDecode.ok)
    (hrun : ∀ p, ∃ t, run p = FfmpegResult.success t)
    (entries : List DirEntry) (w : World)
    (habs : ∀ e ∈ sortByName entries, bulkMatches cfg e = true →
      bulkOutPath cfg e ∉ w.files)
    (hpair : ((sortByName entries).filter (fun e => bulkMatches cfg e)).Pairwise
      (fun a b => bulkOutPath cfg a ≠ bulkOutPath cfg b)) :
    (process_existing_files cfg dec run entries w).invoked
      = w.invoked ++ ((sortByName entries).filter
          (fun e => bulkMatches cfg e)).map (fullPath cfg) ∧
    ∀ w', run_startup cfg dec run entries true w' = w' :=
  ⟨bulk_fold_invoked cfg dec run hdec hrun (sortByName entries) w habs hpair,
   fun _ => rfl⟩

/-- Witness for c4_amended_bulk_pass_extension_filter_only: a directory
with a hidden image, a video, an unrecognized file and a subdirectory; the
two matching files (the hidden image included) are invoked in sorted order. -/
theorem c4_amended_bulk_pass_extension_filter_only_witness :
    (process_existing_files defaultConfig (fun _ => ImageDecode.ok)
        (fun _ => FfmpegResult.success "")
        [{ name := "b.mov", isFile := true }, { name := ".tmp2.jpg", isFile := true },
         { name := "c.txt", isFile := true }, { name := "d", isFile := false }]
        emptyWorld).invoked
      = emptyWorld.invoked ++ ((sortByName
          [{ name := "b.mov", isFile := true }, { name := ".tmp2.jpg", isFile := true },
           { name := "c.txt", isFile := true }, { name := "d", isFile := false }]).filter
          (fun e => bulkMatches defaultConfig e)).map (fullPath defaultConfig) ∧
    ∀ w', run_startup defaultConfig (fun _ => ImageDecode.ok)
        (fun _ => FfmpegResult.success "")
        [{ name := "b.mov", isFile := true }, { name := ".tmp2.jpg", isFile := true },
         { name := "c.txt", isFile := true }, { name := "d", isFile := false }] true w' = w' :=
  c4_amended_bulk_pass_extension_filter_only defaultConfig (fun _ => ImageDecode.ok)
    (fun _ => FfmpegResult.success "") (fun _ => rfl) (fun _ => ⟨"", rfl⟩)
    [{ name := "b.mov", isFile := true }, { name := ".tmp2.jpg", isFile := true },
     { name := "c.txt", isFile := true }, { name := "d", isFile := false }]
    emptyWorld (by decide) (by decide)

end AutoConvert
